import Mathlib

/-!
Shallow embedding of the ragger retrieval-and-generation pipeline
(`src/src/mastra/...`): the evaluate-and-retry step, the embedding-based
groundedness check, the sparse-vector builder, the context retriever
(`getContextStep`), the Qdrant filter translator and the context-blob
format/parse pair.  External services (LLM agents, the embedding model, the
vector-store tools) are passed in as explicit oracle functions, and every
embedded step additionally returns the list of calls it issued to those
oracles, so that claims about which calls happen can be stated and proved.
JS strings are modelled as Lean `String`s (respectively `List Char` for the
format/parse development); JS numbers that carry scores are modelled as `ℚ`.
-/

namespace Ragger

/-- Maximum number of characters of context passed to evaluation and to the
regeneration prompt (`MAX_CONTEXT_LENGTH` in `evaluateAndRetryStep.ts`). -/
def MAX_CONTEXT_LENGTH : Nat := 8000

/-- JS `String.prototype.trim` on a character list: whitespace stripped from
both ends (the ASCII whitespace characters; the further Unicode space
characters JS also strips play no role here). -/
def trimL (s : List Char) : List Char :=
  ((s.dropWhile Char.isWhitespace).reverse.dropWhile Char.isWhitespace).reverse

/-- JS `s.trim()` on strings. -/
def jsTrim (s : String) : String := String.mk (trimL s.data)

/-- Output schema of `evaluateAndRetryStep`: `finalAnswer` plus optional
`evaluationScore` and `isGrounded` fields. -/
structure StepOutput where
  finalAnswer : String
  evaluationScore : Option ℚ
  isGrounded : Option Bool
  deriving DecidableEq

/-- Result of `evaluateAnswer`: overall score, reasoning, groundedness verdict
and the answer that was evaluated. -/
structure EvalResult where
  score : ℚ
  reasoning : String
  isGrounded : Bool
  answer : String
  deriving DecidableEq

/-- Record of one `evaluateAnswer` invocation: the answer text and the context
it was evaluated against. -/
structure EvalCallRecord where
  answer : String
  context : String
  deriving DecidableEq

/-- Embedding-based groundedness check (`isAnswerGrounded` in
`evaluateAndRetryStep.ts`).  `embedO` is the embedding-service oracle
(returning `none` when the call yields no embedding) and `sim` is the cosine
similarity of the external `ai` library.  Returns the verdict together with
the number of embedding-service invocations made: the two guard clauses
(`!context || !context.trim()`, then `!answer || !answer.trim()`) return
`false` before any embedding call. -/
def isAnswerGrounded (embedO : String → Option (List ℚ))
    (sim : List ℚ → List ℚ → ℚ) (groundednessThreshold : ℚ)
    (answer context : String) : Bool × Nat :=
  if jsTrim context = "" then (false, 0)
  else if jsTrim answer = "" then (false, 0)
  else
    match embedO answer, embedO context with
    | some ae, some ce => (sim ae ce > groundednessThreshold, 2)
    | _, _ => (false, 2)

/-- Evaluation prompt built by `evaluateAnswer`. -/
def mkEvalPrompt (userQuery relevantContext answerToEvaluate : String) : String :=
  "User Query: " ++ userQuery ++ "\nContext:\n" ++ relevantContext ++
    "\n\nGenerated Answer: " ++ answerToEvaluate ++
    "\n\nEvaluate the answer based on the context using the dimensions: accuracy, relevance, completeness, coherence. Calculate an overall score (0-1). Provide reasoning. Respond ONLY with JSON matching the schema."

/-- One `evaluateAnswer` run (`evaluateAndRetryStep.ts`): the evaluation agent
oracle `evalAgent` maps the evaluation prompt to the structured output's
`(overall, reasoning)` pair; the groundedness check then runs on the same
answer and context.  Returns the `EvalResult` and the number of
embedding-service calls made. -/
def evaluateAnswer (evalAgent : String → ℚ × String)
    (embedO : String → Option (List ℚ)) (sim : List ℚ → List ℚ → ℚ)
    (groundednessThreshold : ℚ)
    (answerToEvaluate userQuery relevantContext : String) : EvalResult × Nat :=
  let r := evalAgent (mkEvalPrompt userQuery relevantContext answerToEvaluate)
  let g := isAnswerGrounded embedO sim groundednessThreshold answerToEvaluate relevantContext
  (⟨r.1, r.2, g.1, answerToEvaluate⟩, g.2)

/-- Retry prompt built in the conditional-retry branch of
`evaluateAndRetryStep`. -/
def mkRetryPrompt (userQuery truncatedContext : String) (prevScore : ℚ)
    (prevAnswer prevReasoning : String) : String :=
  "User Query: " ++ userQuery ++ "\n\nContext:\n" ++ truncatedContext ++
    "\n\nPrevious Answer (Score: " ++ toString prevScore ++ "): \"" ++ prevAnswer ++
    "\"\nReasoning for low score: " ++ prevReasoning ++
    "\n\nPlease provide an improved answer based *only* on the provided context, addressing the reasons for the low score. Answer:"

/-- Result of the whole step: its output plus the trace of evaluation calls
(each with the context it saw) and of regeneration calls (the prompts sent to
the RAG agent). -/
structure RetryStepResult where
  output : StepOutput
  evalCalls : List EvalCallRecord
  regenCalls : List String
  deriving DecidableEq

/-- The fixed answer returned on empty context. -/
def noContextAnswer : String := "No relevant context found to generate an answer."

/-- `evaluateAndRetryStep.execute` (`evaluateAndRetryStep.ts`).  The JS guard
`!inputData.relevantContext || !inputData.relevantContext.trim()` is
`relevantContext.trim = ""`.  The context is truncated to
`MAX_CONTEXT_LENGTH` characters before any evaluation and before building the
retry prompt; the retry fires exactly when the initial overall score is
strictly below `retryThreshold` (`env.RETRY_THRESHOLD`), and the regenerated
answer is re-evaluated once, with no further loop. -/
def evaluateAndRetryStep (retryThreshold : ℚ)
    (evalAgent : String → ℚ × String)
    (embedO : String → Option (List ℚ)) (sim : List ℚ → List ℚ → ℚ)
    (groundednessThreshold : ℚ)
    (regenAgent : String → String)
    (userQuery relevantContext generatedAnswer : String) : RetryStepResult :=
  if jsTrim relevantContext = "" then
    ⟨⟨noContextAnswer, none, none⟩, [], []⟩
  else
    let truncatedContext := relevantContext.take MAX_CONTEXT_LENGTH
    let e1 := (evaluateAnswer evalAgent embedO sim groundednessThreshold
      generatedAnswer userQuery truncatedContext).1
    if e1.score < retryThreshold then
      let retryPrompt := mkRetryPrompt userQuery truncatedContext e1.score e1.answer e1.reasoning
      let regeneratedAnswer := regenAgent retryPrompt
      let e2 := (evaluateAnswer evalAgent embedO sim groundednessThreshold
        regeneratedAnswer userQuery truncatedContext).1
      ⟨⟨e2.answer, some e2.score, some e2.isGrounded⟩,
        [⟨generatedAnswer, truncatedContext⟩, ⟨regeneratedAnswer, truncatedContext⟩],
        [retryPrompt]⟩
    else
      ⟨⟨e1.answer, some e1.score, some e1.isGrounded⟩,
        [⟨generatedAnswer, truncatedContext⟩], []⟩

/-- Prompt built by `generateResponseStep` (initial generation): it embeds the
*untruncated* `relevantContext`. -/
def generateResponsePrompt (userQuery relevantContext : String) : String :=
  "User Query: " ++ userQuery ++ "\n\nContext:\n" ++ relevantContext ++ "\n\nAnswer:"

/-- Sparse query vector (`sparseVectorHelper.ts`): vector name, vocabulary
indices and parallel term-frequency values. -/
structure SparseVector where
  name : String
  indices : List Nat
  values : List Nat
  deriving DecidableEq

/-- First-occurrence deduplication.  A JS object whose keys are inserted by
iterating a token list enumerates its (non-index-like string) keys in
first-insertion order; `dedupFirst tokens` is that key order. -/
def dedupFirst : List String → List String
  | [] => []
  | t :: rest => t :: (dedupFirst rest).filter (fun u => u ≠ t)

/-- `processQueryForSparseVector` (`sparseVectorHelper.ts`): the token pipeline
`processTextToFinalTokens` (imported from `tokenProcessor.ts`) is passed in as
a function; the guard `!query || !vocabulary` is `query = ""` (the vocabulary
object is always truthy).  The JS term-frequency object built by the
`for`-loop maps each distinct token (in first-occurrence order) to its number
of occurrences; terms absent from the vocabulary are dropped; `none` is
returned when no term survives, else the parallel `indices`/`values` arrays
are built. -/
def processQueryForSparseVector (processTextToFinalTokens : String → List String)
    (query : String) (vocabulary : List (String × Nat))
    (sparseVectorName : String) : Option SparseVector :=
  if query = "" then none
  else
    let processedTokensFinal := processTextToFinalTokens query
    let pairs := (dedupFirst processedTokensFinal).filterMap
      (fun term => (List.lookup term vocabulary).map
        (fun idx => (idx, processedTokensFinal.count term)))
    if pairs.isEmpty then none
    else some ⟨sparseVectorName, pairs.map Prod.fst, pairs.map Prod.snd⟩

/-- JSON-like values: filters and tool payloads.  (JS `undefined` inside a
filter value is not representable and is modelled as `null` where it can
occur; no claim depends on the difference.) -/
inductive Json where
  | null
  | bool (b : Bool)
  | num (q : ℚ)
  | str (s : String)
  | arr (elems : List Json)
  | obj (fields : List (String × Json))

/-- JS truthiness of a JSON value. -/
def jsonTruthy : Json → Bool
  | .null => false
  | .bool b => b
  | .num q => if q = 0 then false else true
  | .str s => if s = "" then false else true
  | .arr _ => true
  | .obj _ => true

/-- Number of keys `Object.keys` reports for a JSON value (objects: own keys;
arrays and strings: indices; primitives: none). -/
def jsonKeysCount : Json → Nat
  | .obj fields => fields.length
  | .arr elems => elems.length
  | .str s => s.length
  | _ => 0

/-- The JS fallback guard `filter && Object.keys(filter).length > 0` of
`getContextStep.ts` (a `null` decision filter is modelled as `none`). -/
def filterNonEmpty : Option Json → Bool
  | some j => jsonTruthy j && decide (0 < jsonKeysCount j)
  | none => false

/-- One retrieved item as consumed by the formatting code of
`getContextStep.ts`: the fields it probes (`source`, `metadata.source`,
`metadata.filePath`, `text`, `content`), each possibly absent. -/
structure Item where
  source : Option String
  metaSource : Option String
  metaFilePath : Option String
  text : Option String
  content : Option String
  deriving DecidableEq

/-- JS truthiness filter on an optional string field: an absent field and the
empty string are both falsy. -/
def truthyStr : Option String → Option String
  | some s => if s = "" then none else some s
  | none => none

/-- Path resolution of the formatter:
`item.source || item.metadata?.source || item.metadata?.filePath || "unknown file"`. -/
def resolvePath (it : Item) : String :=
  match truthyStr it.source with
  | some s => s
  | none =>
    match truthyStr it.metaSource with
    | some s => s
    | none => (truthyStr it.metaFilePath).getD "unknown file"

/-- Content resolution of the formatter: `item.text || item.content || ""`. -/
def resolveContent (it : Item) : String :=
  match truthyStr it.text with
  | some s => s
  | none => (truthyStr it.content).getD ""

/-- Per-record context format of `getContextStep.ts`. -/
def formatSnippetRecord (filePath content : String) : String :=
  "File: " ++ filePath ++ "\n```\n" ++ content ++ "\n```\n---\n"

/-- Context-blob formatting: each item rendered with `formatSnippetRecord` and
joined with the empty separator (zero items yield the empty blob). -/
def formatContextItems (items : List Item) : String :=
  String.join (items.map (fun it => formatSnippetRecord (resolvePath it) (resolveContent it)))

/-- Retrieval strategies of the decision schema. -/
inductive Strategy where
  | basic
  | metadata
  | graph
  | documentation
  | example
  | hierarchical
  deriving DecidableEq

/-- Arguments of one `vectorQueryTool` invocation as assembled by
`getContextStep.ts` (a `filter` of `none` covers both an absent and a `null`
filter argument, which the tool treats alike). -/
structure VectorToolArgs where
  queryText : String
  filter : Option Json
  querySparseVector : Option SparseVector

/-- One tool invocation issued by `getContextStep`. -/
inductive ToolCall where
  | vectorQuery (args : VectorToolArgs)
  | graphRAG (queryText : String)

/-- Phase-A filter of the hierarchical strategy (`summaryFilter`). -/
def summaryFilter : Json :=
  .obj [("must", .arr [.obj [("key", .str "documentType"),
    ("match", .obj [("value", .str "file_summary")])]])]

/-- Phase-B filter of the hierarchical strategy (`chunkFilter`). -/
def chunkFilter (topNFilePaths : List String) : Json :=
  .obj [("must", .arr
    [.obj [("key", .str "documentType"),
      ("match", .obj [("value", .str "chunk_detail")])],
     .obj [("key", .str "source"),
      ("match", .obj [("any", .arr (topNFilePaths.map Json.str))])]])]

/-- Sparse-vector generation of `getContextStep.ts`: only when hybrid search is
enabled and the query text is truthy, and only when the vocabulary loaded
(failures leave it `undefined`). -/
def computeQuerySparseVector (hybridEnabled : Bool)
    (processTextToFinalTokens : String → List String)
    (vocabulary : Option (List (String × Nat))) (queryText : String) :
    Option SparseVector :=
  if hybridEnabled ∧ queryText ≠ "" then
    match vocabulary with
    | some vocab => processQueryForSparseVector processTextToFinalTokens queryText vocab "keyword_sparse"
    | none => none
  else none

/-- Result of `getContextStep.execute`: the outcome (context blob, or the
wrapped error message when the step throws) and the trace of tool calls. -/
structure GetContextResult where
  outcome : Except String String
  calls : List ToolCall

/-- `getContextStep.execute` (`getContextStep.ts`), parameterised by the tool
oracle `tool` (the retrieval agent with forced tool choice, returning the
result item array).
The `graph` branch of the current source only *prepares* `graphRAGTool`
arguments and never issues the call, so `response` stays `undefined` and
reading `response.toolResults` throws, which the `catch` wraps: the branch
errors after zero tool calls.
The `hierarchical` branch queries file summaries, extracts up to
`topNSummaries` truthy `metadata.source` paths, and only when at least one
path was found issues the phase-B chunk query; the fallback below is skipped
for it.
Every other strategy issues one `vectorQueryTool` call with the decision's
filter; if that returns zero items and a non-empty filter was used, exactly
one retry without the filter (same query text and sparse vector) is issued
and its result is used.  The final item list is formatted into the blob
(zero items give the empty blob). -/
def getContextExec (hybridEnabled : Bool) (topNSummaries : Nat)
    (processTextToFinalTokens : String → List String)
    (vocabulary : Option (List (String × Nat)))
    (tool : ToolCall → List Item)
    (strategy : Strategy) (filter : Option Json) (queryText : String) :
    GetContextResult :=
  let querySparseVector := computeQuerySparseVector hybridEnabled
    processTextToFinalTokens vocabulary queryText
  match strategy with
  | .graph =>
    ⟨.error "Failed to get context in step getContext with strategy graph: Cannot read properties of undefined (reading toolResults)", []⟩
  | .hierarchical =>
    let callA := ToolCall.vectorQuery ⟨queryText, some summaryFilter, querySparseVector⟩
    let summaries := tool callA
    let topNFilePaths := (summaries.take topNSummaries).filterMap
      (fun s => truthyStr s.metaSource)
    if topNFilePaths.isEmpty then
      ⟨.ok (formatContextItems []), [callA]⟩
    else
      let callB := ToolCall.vectorQuery
        ⟨queryText, some (chunkFilter topNFilePaths), querySparseVector⟩
      ⟨.ok (formatContextItems (tool callB)), [callA, callB]⟩
  | _ =>
    let call1 := ToolCall.vectorQuery ⟨queryText, filter, querySparseVector⟩
    let items1 := tool call1
    if items1.isEmpty && filterNonEmpty filter then
      let call2 := ToolCall.vectorQuery ⟨queryText, none, querySparseVector⟩
      ⟨.ok (formatContextItems (tool call2)), [call1, call2]⟩
    else
      ⟨.ok (formatContextItems items1), [call1]⟩

/-- Supported-operator table of the filter translator.  The logical, array,
regex and custom entries are declared in
`QdrantFilterTranslator.getSupportedOperators` (`qdrantFilter.ts`); the base
comparison/element entries are modelled from the spec ("operators ⊇
eq/ne/gt/gte/lt/lte/in/nin/regex/exists"), as `BaseFilterTranslator` lives in
`@mastra/core`, outside src/. -/
def supportedOperators : List String :=
  ["$and", "$or", "$not",
   "$eq", "$ne", "$gt", "$gte", "$lt", "$lte",
   "$in", "$nin", "$regex", "$exists",
   "$count", "$geo", "$nested", "$datetime", "$null", "$empty", "$hasId", "$hasVector"]

/-- Key membership in the supported-operator table. -/
def isSupportedOp (key : String) : Bool := supportedOperators.contains key

/-- JS `key.startsWith("$")`. -/
def startsWithDollar (key : String) : Bool :=
  match key.data with
  | '$' :: _ => true
  | _ => false

/-- Modelled from the spec: `BaseFilterTranslator.isLogicalOperator` (from
`@mastra/core`, not in src/) recognises the AND/OR/NOT logical node keys. -/
def isLogicalOperatorBase (key : String) : Bool :=
  key == "$and" || key == "$or" || key == "$not"

/-- `QdrantFilterTranslator.isLogicalOperator` override: the base logical
operators plus `$hasId` and `$hasVector`. -/
def isLogicalOperator (key : String) : Bool :=
  isLogicalOperatorBase key || key == "$hasId" || key == "$hasVector"

/-- The custom Qdrant operators (`getSupportedOperators().custom`). -/
def isCustomOperator (key : String) : Bool :=
  ["$count", "$geo", "$nested", "$datetime", "$null", "$empty", "$hasId", "$hasVector"].contains key

/-- Modelled from the spec: `BaseFilterTranslator.isOperator` (from
`@mastra/core`, not in src/) recognises the field-level
comparison/array/regex/element operators of the spec's operator list. -/
def isOperator (key : String) : Bool :=
  ["$eq", "$ne", "$gt", "$gte", "$lt", "$lte", "$in", "$nin", "$regex", "$exists"].contains key

/-- Modelled from the spec: `BaseFilterTranslator.isEmpty` (from
`@mastra/core`, not in src/) — a filter node is empty when it is
null/undefined or an object with no keys ("translating `{}` (empty) returns
the input unchanged"). -/
def isEmptyNode : Json → Bool
  | .null => true
  | .obj fields => fields.isEmpty
  | _ => false

/-- The `"must" in node` test of `translateNode` (true only for objects that
carry a `must` key; arrays and primitives have none). -/
def hasMustKey : Json → Bool
  | .obj fields => fields.any (fun p => p.1 == "must")
  | _ => false

/-- Field-key argument as a JSON value (a JS `undefined` key is modelled as
`null`; no claim depends on the difference). -/
def optStr : Option String → Json
  | some s => .str s
  | none => .null

/-- Property access `j[key]` on a JSON value. -/
def jsonGet (j : Json) (key : String) : Option Json :=
  match j with
  | .obj fields => List.lookup key fields
  | _ => none

/-- `Object.entries` of a JSON value (empty for non-objects). -/
def jsonFields : Json → List (String × Json)
  | .obj fields => fields
  | _ => []

/-- Single-field update with `Object.assign` semantics: an existing key is
overwritten in place, a new key is appended. -/
def assignField (fs : List (String × Json)) (k : String) (v : Json) :
    List (String × Json) :=
  if fs.any (fun p => p.1 == k) then fs.map (fun p => if p.1 == k then (k, v) else p)
  else fs ++ [(k, v)]

/-- `Object.assign(target, source)` over field lists. -/
def assignFields (fs newFields : List (String × Json)) : List (String × Json) :=
  newFields.foldl (fun acc p => assignField acc p.1 p.2) fs

/-- JS `k.replace("$", "")`: removes only the first occurrence of `$`. -/
def removeFirstDollar (k : String) : String :=
  match k.splitOn "$" with
  | [] => k
  | [a] => a
  | a :: b :: rest => a ++ String.intercalate "$" (b :: rest)

/-- The character class of `sanitizeRegex` (`qdrantFilter.ts`). -/
def regexEscapeChars : List Char :=
  ['-', '/', '\\', '^', '$', '*', '+', '?', '.', '(', ')', '|', '[', ']', '\x7b', '\x7d']

/-- `QdrantFilterTranslator.sanitizeRegex`: escape every regex metacharacter
with a backslash. -/
def sanitizeRegex (pattern : String) : String :=
  String.mk ((pattern.data.map
    (fun c => if regexEscapeChars.contains c then ['\\', c] else [c])).flatten)

/-- `QdrantFilterTranslator.createCondition`. -/
def createCondition (type : String) (value : Json) (fieldKey : Option String) : Json :=
  match fieldKey with
  | some k => .obj [("key", .str k), (type, value)]
  | none => .obj [(type, value)]

/-- Modelled from the spec: `BaseFilterTranslator.normalizeComparisonValue`
(from `@mastra/core`, not in src/); the spec describes no transformation of
primitive comparison values (JS `Date` normalisation is not representable
here), so it is the identity. -/
def normalizeComparisonValue (v : Json) : Json := v

/-- Modelled from the spec: `BaseFilterTranslator.normalizeArrayValues` (from
`@mastra/core`, not in src/) maps `normalizeComparisonValue` over an array,
hence the identity here. -/
def normalizeArrayValues (v : Json) : Json := v

/-- `QdrantFilterTranslator.getQdrantLogicalOp`. -/
def getQdrantLogicalOp (op : String) : Except String String :=
  if op = "$and" then .ok "must"
  else if op = "$or" then .ok "should"
  else if op = "$not" then .ok "must_not"
  else .error ("Unsupported logical operator: " ++ op)

/-- `QdrantFilterTranslator.translateGeoFilter` (the `centre` spelling is the
source's). -/
def translateGeoFilter (type : Option Json) (value : Json) : Except String Json :=
  match type with
  | some (.str "box") => .ok (.obj [("geo_bounding_box", .obj
      [("top_left", (jsonGet value "top_left").getD .null),
       ("bottom_right", (jsonGet value "bottom_right").getD .null)])])
  | some (.str "radius") => .ok (.obj [("geo_radius", .obj
      [("centre", (jsonGet value "center").getD .null),
       ("radius", (jsonGet value "radius").getD .null)])])
  | some (.str "polygon") => .ok (.obj [("geo_polygon", .obj
      [("exterior", (jsonGet value "exterior").getD .null),
       ("interiors", (jsonGet value "interiors").getD .null)])])
  | some (.str t) => .error ("Unsupported geo filter type: " ++ t)
  | _ => .error "Unsupported geo filter type: undefined"

/-- `QdrantFilterTranslator.normalizeDatetimeRange`: string bounds are kept,
anything else is dropped (JS `Date` values are not representable here). -/
def normalizeDatetimeRange (value : Json) : Json :=
  match value with
  | .obj fields => .obj (fields.filterMap
      (fun p => match p.2 with | .str s => some (p.1, Json.str s) | _ => none))
  | _ => .obj []

/-- `QdrantFilterTranslator.translateOperatorValue`.  Note the source compares
the operator against the bare string `"exists"` although keys arrive as
`"$exists"`, so `"$exists"` falls through to the default error. -/
def translateOperatorValue (operator : String) (value : Json)
    (fieldKey : Option String) : Except String Json :=
  if operator = "exists" then
    match fieldKey with
    | none => .error "exists operator requires a field key."
    | some fk =>
      .ok (if jsonTruthy value then
        .obj [("must_not", .arr [.obj [("is_null", .obj [("key", .str fk)])]])]
      else .obj [("is_null", .obj [("key", .str fk)])])
  else
    let normalizedValue := normalizeComparisonValue value
    if operator = "$eq" then .ok (.obj [("value", normalizedValue)])
    else if operator = "$ne" then .ok (.obj [("except", .arr [normalizedValue])])
    else if operator = "$gt" then .ok (.obj [("range", .obj [("gt", normalizedValue)])])
    else if operator = "$gte" then .ok (.obj [("range", .obj [("gte", normalizedValue)])])
    else if operator = "$lt" then .ok (.obj [("range", .obj [("lt", normalizedValue)])])
    else if operator = "$lte" then .ok (.obj [("range", .obj [("lte", normalizedValue)])])
    else if operator = "$in" then .ok (.obj [("any", normalizeArrayValues value)])
    else if operator = "$nin" then .ok (.obj [("except", normalizeArrayValues value)])
    else if operator = "$regex" then
      match value with
      | .str pattern => .ok (.obj [("match", .obj [("text", .str (sanitizeRegex pattern))])])
      | _ => .error "TypeError: pattern.replace is not a function"
    else .error ("Unsupported operator or incorrect handling: " ++ operator)

/-- `QdrantFilterTranslator.buildFinalConditions`: zero conditions give `{}`,
a single condition at a nested level collapses, anything else wraps in
`must`. -/
def buildFinalConditions (conditions : List Json) (isNested : Bool) : Json :=
  match conditions, isNested with
  | [], _ => .obj []
  | [c], true => c
  | cs, _ => .obj [("must", .arr cs)]

mutual

/-- `QdrantFilterTranslator.translateNode` (`qdrantFilter.ts`).  The leading
native-format passthrough returns any non-empty object carrying a `must` key
unchanged; primitives become match/is-null conditions, arrays become
is-empty/any-of matches, and objects go through the logical-operator handling
and then the per-field condition handling.  (The JS regex-literal branch is
not representable in `Json` and is omitted; thrown JS errors are `.error`.) -/
def translateNode (node : Json) (isNested : Bool) (fieldKey : Option String) :
    Except String Json :=
  if !isEmptyNode node && hasMustKey node then .ok node
  else
    match node with
    | .null => .ok (.obj [("is_null", .obj [("key", optStr fieldKey)])])
    | .bool b => .ok (createCondition "match"
        (.obj [("value", normalizeComparisonValue (.bool b))]) fieldKey)
    | .num q => .ok (createCondition "match"
        (.obj [("value", normalizeComparisonValue (.num q))]) fieldKey)
    | .str s => .ok (createCondition "match"
        (.obj [("value", normalizeComparisonValue (.str s))]) fieldKey)
    | .arr elems =>
      if elems.isEmpty then .ok (.obj [("is_empty", .obj [("key", optStr fieldKey)])])
      else .ok (createCondition "match"
        (.obj [("any", normalizeArrayValues (.arr elems))]) fieldKey)
    | .obj fields =>
      match handleLogicalOperators fields isNested with
      | .error e => .error e
      | .ok (some logicalResult) => .ok logicalResult
      | .ok none =>
        match handleFieldConditions fields fieldKey [] [] none with
        | .error e => .error e
        | .ok (conds, range, matchC) =>
          let conds := if range.isEmpty then conds
            else conds ++ [.obj [("key", optStr fieldKey), ("range", .obj range)]]
          let conds := match matchC with
            | some m => conds ++ [.obj [("key", optStr fieldKey), ("match", m)]]
            | none => conds
          .ok (buildFinalConditions conds isNested)
termination_by (sizeOf node, 0)

/-- `QdrantFilterTranslator.handleLogicalOperators`: a leading
(non-custom) logical key maps to the native conjunction over the translated
children; a multi-key top-level object of plain fields becomes an implicit
`must`; otherwise `none` hands over to the field handling. -/
def handleLogicalOperators (entries : List (String × Json)) (isNested : Bool) :
    Except String (Option Json) :=
  match entries with
  | (key, value) :: tail =>
    if isLogicalOperator key && !isCustomOperator key then
      match getQdrantLogicalOp key with
      | .error e => .error e
      | .ok qdrantOp =>
        match value with
        | .arr vs =>
          match translateNodeList vs with
          | .error e => .error e
          | .ok children => .ok (some (.obj [(qdrantOp, .arr children)]))
        | v =>
          match translateNode v true none with
          | .error e => .error e
          | .ok c => .ok (some (.obj [(qdrantOp, .arr [c])]))
    else if decide (1 < ((key, value) :: tail).length) && !isNested &&
        ((key, value) :: tail).all (fun p => !isOperator p.1 && !isCustomOperator p.1) then
      match translateEntries ((key, value) :: tail) with
      | .error e => .error e
      | .ok cs => .ok (some (.obj [("must", .arr cs)]))
    else .ok none
  | [] => .ok none
termination_by (sizeOf entries, 2)

/-- Mapping of `translateNode (·, true)` over the children array of a logical
operator. -/
def translateNodeList (nodes : List Json) : Except String (List Json) :=
  match nodes with
  | [] => .ok []
  | v :: rest =>
    match translateNode v true none with
    | .error e => .error e
    | .ok c =>
      match translateNodeList rest with
      | .error e => .error e
      | .ok cs => .ok (c :: cs)
termination_by (sizeOf nodes, 1)

/-- Mapping of `translateNode (value, true, key)` over the entries of an
implicit top-level AND. -/
def translateEntries (entries : List (String × Json)) : Except String (List Json) :=
  match entries with
  | [] => .ok []
  | (k, v) :: rest =>
    match translateNode v true (some k) with
    | .error e => .error e
    | .ok c =>
      match translateEntries rest with
      | .error e => .error e
      | .ok cs => .ok (c :: cs)
termination_by (sizeOf entries, 1)

/-- `QdrantFilterTranslator.handleFieldConditions`, with the loop state
(`conditions`, `range`, `matchCondition`) carried explicitly.  A custom
operator adds a condition; a field operator contributes to `range` when its
result has a truthy `range` property and otherwise overwrites
`matchCondition`; a plain key recurses with the dotted nested key and either
spreads the recursion's `must` list or pushes the non-empty condition. -/
def handleFieldConditions (entries : List (String × Json)) (fieldKey : Option String)
    (conds : List Json) (range : List (String × Json)) (matchC : Option Json) :
    Except String (List Json × List (String × Json) × Option Json) :=
  match entries with
  | [] => .ok (conds, range, matchC)
  | (k, v) :: rest =>
    if isCustomOperator k then
      match translateCustomOperator k v fieldKey with
      | .error e => .error e
      | .ok c => handleFieldConditions rest fieldKey (conds ++ [c]) range matchC
    else if isOperator k then
      match translateOperatorValue k v fieldKey with
      | .error e => .error e
      | .ok opResult =>
        match jsonGet opResult "range" with
        | some rv =>
          if jsonTruthy rv then
            handleFieldConditions rest fieldKey conds (assignFields range (jsonFields rv)) matchC
          else handleFieldConditions rest fieldKey conds range (some opResult)
        | none => handleFieldConditions rest fieldKey conds range (some opResult)
    else
      let nestedKey := match fieldKey with
        | some fk => fk ++ "." ++ k
        | none => k
      match translateNode v true (some nestedKey) with
      | .error e => .error e
      | .ok nc =>
        match jsonGet nc "must" with
        | some m =>
          if jsonTruthy m then
            match m with
            | .arr ms => handleFieldConditions rest fieldKey (conds ++ ms) range matchC
            | _ => .error "TypeError: nestedCondition.must is not iterable"
          else if isEmptyNode nc then handleFieldConditions rest fieldKey conds range matchC
          else handleFieldConditions rest fieldKey (conds ++ [nc]) range matchC
        | none =>
          if isEmptyNode nc then handleFieldConditions rest fieldKey conds range matchC
          else handleFieldConditions rest fieldKey (conds ++ [nc]) range matchC
termination_by (sizeOf entries, 2)

/-- `QdrantFilterTranslator.translateCustomOperator`: the Qdrant-specific
operators, with the default case raising the unsupported-custom-operator
error. -/
def translateCustomOperator (op : String) (value : Json) (fieldKey : Option String) :
    Except String Json :=
  if op = "$count" then
    .ok (.obj [("key", optStr fieldKey),
      ("values_count", .obj ((jsonFields value).foldl
        (fun acc p => assignField acc (removeFirstDollar p.1) p.2) []))])
  else if op = "$geo" then
    match translateGeoFilter (jsonGet value "type") value with
    | .error e => .error e
    | .ok geoOp => .ok (.obj (("key", optStr fieldKey) :: jsonFields geoOp))
  else if op = "$hasId" then
    .ok (.obj [("has_id", match value with | .arr vs => .arr vs | v => .arr [v])])
  else if op = "$nested" then
    match translateNode value false none with
    | .error e => .error e
    | .ok f => .ok (.obj [("nested", .obj [("key", optStr fieldKey), ("filter", f)])])
  else if op = "$hasVector" then .ok (.obj [("has_vector", value)])
  else if op = "$datetime" then
    match jsonGet value "range" with
    | some r => .ok (.obj [("key", optStr fieldKey), ("range", normalizeDatetimeRange r)])
    | none => .error "TypeError: Cannot convert undefined or null to object"
  else if op = "$null" then .ok (.obj [("is_null", .obj [("key", optStr fieldKey)])])
  else if op = "$empty" then .ok (.obj [("is_empty", .obj [("key", optStr fieldKey)])])
  else .error ("Unsupported custom operator: " ++ op)
termination_by (sizeOf value, 3)

end

mutual

/-- Modelled from the spec: `BaseFilterTranslator.validateFilter` (from
`@mastra/core`, not in src/) — "validated against a declared
supported-operator set before translation; unsupported operator/shape fails
closed with an explicit error, never silently ignored".  The filter tree is
walked and any `$`-prefixed key outside the supported-operator table raises
the unsupported-operator error. -/
def validateFilter : Json → Except String Unit
  | .obj fields => validateFields fields
  | .arr elems => validateList elems
  | .null => .ok ()
  | .bool _ => .ok ()
  | .num _ => .ok ()
  | .str _ => .ok ()

/-- Validation of an object's fields (see `validateFilter`). -/
def validateFields : List (String × Json) → Except String Unit
  | [] => .ok ()
  | (k, v) :: rest =>
    if startsWithDollar k && !isSupportedOp k then
      .error ("Unsupported operator: " ++ k)
    else
      match validateFilter v with
      | .error e => .error e
      | .ok _ => validateFields rest

/-- Validation of an array's elements (see `validateFilter`). -/
def validateList : List Json → Except String Unit
  | [] => .ok ()
  | v :: rest =>
    match validateFilter v with
    | .error e => .error e
    | .ok _ => validateList rest

end

/-- `QdrantFilterTranslator.translate` (`qdrantFilter.ts`): empty filters pass
through unchanged, otherwise the filter is validated and then translated. -/
def translate (filter : Json) : Except String Json :=
  if isEmptyNode filter then .ok filter
  else
    match validateFilter filter with
    | .error e => .error e
    | .ok _ => translateNode filter false none

mutual

/-- Presence of a `$`-prefixed key outside the supported-operator table
anywhere in a filter tree. -/
def hasUnsupportedOp : Json → Bool
  | .obj fields => hasUnsupportedOpFields fields
  | .arr elems => hasUnsupportedOpList elems
  | .null => false
  | .bool _ => false
  | .num _ => false
  | .str _ => false

/-- See `hasUnsupportedOp`. -/
def hasUnsupportedOpFields : List (String × Json) → Bool
  | [] => false
  | (k, v) :: rest =>
    (startsWithDollar k && !isSupportedOp k) || hasUnsupportedOp v ||
      hasUnsupportedOpFields rest

/-- See `hasUnsupportedOp`. -/
def hasUnsupportedOpList : List Json → Bool
  | [] => false
  | v :: rest => hasUnsupportedOp v || hasUnsupportedOpList rest

end

/-- The record prefix `File: ` of the context format. -/
def fileTagL : List Char := "File: ".data

/-- The opening fence delimiter between path and content. -/
def openFenceL : List Char := "\n```\n".data

/-- The closing fence-plus-separator delimiter after the content. -/
def closeFenceL : List Char := "\n```\n---".data

/-- Boolean prefix test on character lists. -/
def isPrefixOfL : List Char → List Char → Bool
  | [], _ => true
  | _ :: _, [] => false
  | a :: as, b :: bs => a == b && isPrefixOfL as bs

/-- Split at the first occurrence of `pat`: returns the part before the first
occurrence and the part after it, or `none` when `pat` does not occur. -/
def findFirstSplit (pat : List Char) : List Char → Option (List Char × List Char)
  | [] => if pat.isEmpty then some ([], []) else none
  | c :: rest =>
    if isPrefixOfL pat (c :: rest) then some ([], (c :: rest).drop pat.length)
    else
      match findFirstSplit pat rest with
      | some (pre, post) => some (c :: pre, post)
      | none => none

/-- One record of the retriever's context format
(`getContextStep.ts`): `File: <path>\n` + fenced content + `\n---\n`. -/
def formatSnippetRecordL (filePath content : List Char) : List Char :=
  fileTagL ++ filePath ++ openFenceL ++ content ++ closeFenceL ++ ['\n']

/-- The full context blob: records concatenated in order with no separator. -/
def formatSnippetsL (snips : List (List Char × List Char)) : List Char :=
  (snips.map (fun s => formatSnippetRecordL s.1 s.2)).flatten

/-- `parseContextSnippets` (`compressContextStep.ts`): the global-exec loop of
the lazy record regex (pattern `fileTagL`, lazy group, `openFenceL`, lazy
group, `closeFenceL`; flags g and s), with both captured groups trimmed.  A
leftmost lazy match is the first `fileTagL` occurrence whose two delimiters
both occur after it, the two lazy groups ending at the earliest such
delimiter occurrences; since the delimiter occurrences available to any later
`fileTagL` start are a subset of those available to an earlier one, the
chained earliest-occurrence search below finds exactly the leftmost regex
match (and `none` anywhere in the chain exactly when the regex has no further
match).  The loop then resumes right after the matched `closeFenceL`. -/
def parseContextSnippetsL (s : List Char) : List (List Char × List Char) :=
  match _h1 : findFirstSplit fileTagL s with
  | none => []
  | some (_pre, r1) =>
    match _h2 : findFirstSplit openFenceL r1 with
    | none => []
    | some (a, r2) =>
      match _h3 : findFirstSplit closeFenceL r2 with
      | none => []
      | some (b, r3) => (trimL a, trimL b) :: parseContextSnippetsL r3
termination_by s.length
decreasing_by
  have key : ∀ (pat : List Char), pat ≠ [] → ∀ (t x y : List Char),
      findFirstSplit pat t = some (x, y) → y.length < t.length := by
    intro pat hpat t
    induction t with
    | nil =>
      intro x y h
      have hpe : pat.isEmpty = false := by
        cases pat with
        | nil => exact absurd rfl hpat
        | cons p ps => rfl
      simp [findFirstSplit, hpe] at h
    | cons c rest ih =>
      intro x y h
      rw [findFirstSplit] at h
      by_cases hp : isPrefixOfL pat (c :: rest) = true
      · rw [if_pos hp] at h
        simp only [Option.some.injEq, Prod.mk.injEq] at h
        obtain ⟨-, hy⟩ := h
        subst hy
        have hlen : 1 ≤ pat.length := by
          cases pat with
          | nil => exact absurd rfl hpat
          | cons p ps => simp
        rw [List.length_drop]
        simp only [List.length_cons]
        omega
      · rw [if_neg hp] at h
        cases hfr : findFirstSplit pat rest with
        | none => rw [hfr] at h; simp at h
        | some pr =>
          rw [hfr] at h
          obtain ⟨pre, post⟩ := pr
          simp only [Option.some.injEq, Prod.mk.injEq] at h
          obtain ⟨-, hy⟩ := h
          subst hy
          have := ih pre post hfr
          simp only [List.length_cons]
          omega
  have k1 := key fileTagL (by decide) s _pre r1 _h1
  have k2 := key openFenceL (by decide) r1 a r2 _h2
  have k3 := key closeFenceL (by decide) r2 b r3 _h3
  omega

/-- C3: for every input to the evaluate-and-retry step whose context blob is
the empty string or whitespace-only, the step returns the fixed answer
"No relevant context found to generate an answer." with the
`evaluationScore` and `isGrounded` output fields absent, and makes no
evaluation call (hence no groundedness check, which runs inside an
evaluation) and no regeneration call. -/
theorem evaluateAndRetry_empty_context
    (retryThreshold : ℚ) (evalAgent : String → ℚ × String)
    (embedO : String → Option (List ℚ)) (sim : List ℚ → List ℚ → ℚ)
    (groundednessThreshold : ℚ) (regenAgent : String → String)
    (userQuery relevantContext generatedAnswer : String)
    (h : jsTrim relevantContext = "") :
    evaluateAndRetryStep retryThreshold evalAgent embedO sim groundednessThreshold
      regenAgent userQuery relevantContext generatedAnswer =
      ⟨⟨noContextAnswer, none, none⟩, [], []⟩ := by
  simp [evaluateAndRetryStep, h]

/-- Closed witness for `evaluateAndRetry_empty_context` at a whitespace-only
context. -/
theorem evaluateAndRetry_empty_context_witness :
    jsTrim "  " = "" ∧
    evaluateAndRetryStep (3/5 : ℚ) (fun _ => ((1 : ℚ), "fine"))
      (fun _ => some [(1 : ℚ)]) (fun _ _ => (1 : ℚ)) (7/10 : ℚ)
      (fun _ => "regenerated") "query" "  " "answer" =
      ⟨⟨noContextAnswer, none, none⟩, [], []⟩ :=
  ⟨by decide,
    evaluateAndRetry_empty_context (3/5 : ℚ) (fun _ => ((1 : ℚ), "fine"))
      (fun _ => some [(1 : ℚ)]) (fun _ _ => (1 : ℚ)) (7/10 : ℚ)
      (fun _ => "regenerated") "query" "  " "answer" (by decide)⟩

/-- C4: for every answer/context pair in which the answer or the context is
empty or whitespace-only, the groundedness check returns not-grounded and
performs zero embedding-service invocations. -/
theorem isAnswerGrounded_empty_inputs
    (embedO : String → Option (List ℚ)) (sim : List ℚ → List ℚ → ℚ)
    (groundednessThreshold : ℚ) (answer context : String)
    (h : jsTrim answer = "" ∨ jsTrim context = "") :
    isAnswerGrounded embedO sim groundednessThreshold answer context = (false, 0) := by
  by_cases hc : jsTrim context = ""
  · simp [isAnswerGrounded, hc]
  · rcases h with ha | hc2
    · simp [isAnswerGrounded, hc, ha]
    · exact absurd hc2 hc

/-- Closed witness for `isAnswerGrounded_empty_inputs` at an empty answer and
a non-empty context. -/
theorem isAnswerGrounded_empty_inputs_witness :
    (jsTrim " " = "" ∨ jsTrim "some context" = "") ∧
    isAnswerGrounded (fun _ => some [(1 : ℚ)]) (fun _ _ => (1 : ℚ)) (7/10 : ℚ)
      " " "some context" = (false, 0) :=
  ⟨Or.inl (by decide),
    isAnswerGrounded_empty_inputs (fun _ => some [(1 : ℚ)]) (fun _ _ => (1 : ℚ))
      (7/10 : ℚ) " " "some context" (Or.inl (by decide))⟩

/-- C1: for every run with a non-empty context blob, at most one regeneration
happens: when the initial evaluation's overall score is at least the retry
threshold, the returned final answer is the first-pass answer, no
regeneration call is made and exactly one evaluation happens; when the score
is strictly below the threshold, exactly one regeneration and one
re-evaluation happen (one regeneration call, two evaluation calls in total)
and the regenerated answer is returned whatever its second score is. -/
theorem evaluateAndRetry_bounded_retry
    (retryThreshold : ℚ) (evalAgent : String → ℚ × String)
    (embedO : String → Option (List ℚ)) (sim : List ℚ → List ℚ → ℚ)
    (groundednessThreshold : ℚ) (regenAgent : String → String)
    (userQuery relevantContext generatedAnswer : String)
    (h : jsTrim relevantContext ≠ "") :
    (retryThreshold ≤ (evalAgent (mkEvalPrompt userQuery
        (relevantContext.take MAX_CONTEXT_LENGTH) generatedAnswer)).1 →
      (evaluateAndRetryStep retryThreshold evalAgent embedO sim groundednessThreshold
          regenAgent userQuery relevantContext generatedAnswer).output.finalAnswer =
        generatedAnswer ∧
      (evaluateAndRetryStep retryThreshold evalAgent embedO sim groundednessThreshold
          regenAgent userQuery relevantContext generatedAnswer).regenCalls = [] ∧
      (evaluateAndRetryStep retryThreshold evalAgent embedO sim groundednessThreshold
          regenAgent userQuery relevantContext generatedAnswer).evalCalls.length = 1) ∧
    ((evalAgent (mkEvalPrompt userQuery
        (relevantContext.take MAX_CONTEXT_LENGTH) generatedAnswer)).1 < retryThreshold →
      (evaluateAndRetryStep retryThreshold evalAgent embedO sim groundednessThreshold
          regenAgent userQuery relevantContext generatedAnswer).regenCalls.length = 1 ∧
      (evaluateAndRetryStep retryThreshold evalAgent embedO sim groundednessThreshold
          regenAgent userQuery relevantContext generatedAnswer).evalCalls.length = 2 ∧
      (evaluateAndRetryStep retryThreshold evalAgent embedO sim groundednessThreshold
          regenAgent userQuery relevantContext generatedAnswer).output.finalAnswer =
        regenAgent (mkRetryPrompt userQuery (relevantContext.take MAX_CONTEXT_LENGTH)
          (evalAgent (mkEvalPrompt userQuery
            (relevantContext.take MAX_CONTEXT_LENGTH) generatedAnswer)).1
          generatedAnswer
          (evalAgent (mkEvalPrompt userQuery
            (relevantContext.take MAX_CONTEXT_LENGTH) generatedAnswer)).2)) := by
  constructor
  · intro hge
    have hnot : ¬((evalAgent (mkEvalPrompt userQuery
        (relevantContext.take MAX_CONTEXT_LENGTH) generatedAnswer)).1 < retryThreshold) :=
      not_lt.mpr hge
    refine ⟨?_, ?_, ?_⟩ <;>
      simp [evaluateAndRetryStep, evaluateAnswer, h, hnot]
  · intro hlt
    refine ⟨?_, ?_, ?_⟩ <;>
      simp [evaluateAndRetryStep, evaluateAnswer, h, hlt]

/-- Closed witness for `evaluateAndRetry_bounded_retry`: oracles returning the
constant score 1, threshold 3/5; both implications are obtained at these
concrete inputs (the second with its hypothesis 1 < 3/5 unfulfillable, the
first fully exercised). -/
theorem evaluateAndRetry_bounded_retry_witness :
    jsTrim "ctx" ≠ "" ∧
    (((3/5 : ℚ) ≤ (1 : ℚ) →
      (evaluateAndRetryStep (3/5 : ℚ) (fun _ => ((1 : ℚ), "fine"))
          (fun _ => some [(1 : ℚ)]) (fun _ _ => (1 : ℚ)) (7/10 : ℚ)
          (fun _ => "regenerated") "query" "ctx" "answer").output.finalAnswer =
        "answer" ∧
      (evaluateAndRetryStep (3/5 : ℚ) (fun _ => ((1 : ℚ), "fine"))
          (fun _ => some [(1 : ℚ)]) (fun _ _ => (1 : ℚ)) (7/10 : ℚ)
          (fun _ => "regenerated") "query" "ctx" "answer").regenCalls = [] ∧
      (evaluateAndRetryStep (3/5 : ℚ) (fun _ => ((1 : ℚ), "fine"))
          (fun _ => some [(1 : ℚ)]) (fun _ _ => (1 : ℚ)) (7/10 : ℚ)
          (fun _ => "regenerated") "query" "ctx" "answer").evalCalls.length = 1) ∧
    ((1 : ℚ) < (3/5 : ℚ) →
      (evaluateAndRetryStep (3/5 : ℚ) (fun _ => ((1 : ℚ), "fine"))
          (fun _ => some [(1 : ℚ)]) (fun _ _ => (1 : ℚ)) (7/10 : ℚ)
          (fun _ => "regenerated") "query" "ctx" "answer").regenCalls.length = 1 ∧
      (evaluateAndRetryStep (3/5 : ℚ) (fun _ => ((1 : ℚ), "fine"))
          (fun _ => some [(1 : ℚ)]) (fun _ _ => (1 : ℚ)) (7/10 : ℚ)
          (fun _ => "regenerated") "query" "ctx" "answer").evalCalls.length = 2 ∧
      (evaluateAndRetryStep (3/5 : ℚ) (fun _ => ((1 : ℚ), "fine"))
          (fun _ => some [(1 : ℚ)]) (fun _ _ => (1 : ℚ)) (7/10 : ℚ)
          (fun _ => "regenerated") "query" "ctx" "answer").output.finalAnswer =
        "regenerated")) :=
  ⟨by decide,
    evaluateAndRetry_bounded_retry (3/5 : ℚ) (fun _ => ((1 : ℚ), "fine"))
      (fun _ => some [(1 : ℚ)]) (fun _ _ => (1 : ℚ)) (7/10 : ℚ)
      (fun _ => "regenerated") "query" "ctx" "answer" (by decide)⟩

/-- C9: for every run with a non-empty context blob longer than
`MAX_CONTEXT_LENGTH` characters, every evaluation call of the
evaluate-and-retry step sees exactly the first `MAX_CONTEXT_LENGTH`
characters of the blob, every regeneration prompt is built from that same
truncated context, while the initial-generation prompt of
`generateResponseStep` embeds the full untruncated blob. -/
theorem context_truncation
    (retryThreshold : ℚ) (evalAgent : String → ℚ × String)
    (embedO : String → Option (List ℚ)) (sim : List ℚ → List ℚ → ℚ)
    (groundednessThreshold : ℚ) (regenAgent : String → String)
    (userQuery relevantContext generatedAnswer : String)
    (h : jsTrim relevantContext ≠ "")
    (hlen : MAX_CONTEXT_LENGTH < relevantContext.length) :
    (∀ c ∈ (evaluateAndRetryStep retryThreshold evalAgent embedO sim
        groundednessThreshold regenAgent userQuery relevantContext
        generatedAnswer).evalCalls,
      c.context = relevantContext.take MAX_CONTEXT_LENGTH) ∧
    (∀ p ∈ (evaluateAndRetryStep retryThreshold evalAgent embedO sim
        groundednessThreshold regenAgent userQuery relevantContext
        generatedAnswer).regenCalls,
      ∃ score reasoning, p = mkRetryPrompt userQuery
        (relevantContext.take MAX_CONTEXT_LENGTH) score generatedAnswer reasoning) ∧
    (∃ pre post, generateResponsePrompt userQuery relevantContext =
      pre ++ relevantContext ++ post) := by
  refine ⟨?_, ?_, ?_⟩
  · intro c hc
    by_cases hscore : (evalAgent (mkEvalPrompt userQuery
        (relevantContext.take MAX_CONTEXT_LENGTH) generatedAnswer)).1 < retryThreshold
    · simp [evaluateAndRetryStep, evaluateAnswer, h, hscore] at hc
      rcases hc with hc | hc <;> simp [hc]
    · simp [evaluateAndRetryStep, evaluateAnswer, h, hscore] at hc
      simp [hc]
  · intro p hp
    by_cases hscore : (evalAgent (mkEvalPrompt userQuery
        (relevantContext.take MAX_CONTEXT_LENGTH) generatedAnswer)).1 < retryThreshold
    · simp [evaluateAndRetryStep, evaluateAnswer, h, hscore] at hp
      exact ⟨_, _, hp⟩
    · simp [evaluateAndRetryStep, evaluateAnswer, h, hscore] at hp
  · exact ⟨"User Query: " ++ userQuery ++ "\n\nContext:\n", "\n\nAnswer:", rfl⟩

/-- Closed witness for `context_truncation` at a context of 8001 characters. -/
theorem context_truncation_witness :
    jsTrim (String.mk (List.replicate 8001 'c')) ≠ "" ∧
    MAX_CONTEXT_LENGTH < (String.mk (List.replicate 8001 'c')).length ∧
    ((∀ c ∈ (evaluateAndRetryStep (3/5 : ℚ) (fun _ => ((1 : ℚ), "fine"))
        (fun _ => some [(1 : ℚ)]) (fun _ _ => (1 : ℚ)) (7/10 : ℚ)
        (fun _ => "regenerated") "query" (String.mk (List.replicate 8001 'c'))
        "answer").evalCalls,
      c.context = (String.mk (List.replicate 8001 'c')).take MAX_CONTEXT_LENGTH) ∧
    (∀ p ∈ (evaluateAndRetryStep (3/5 : ℚ) (fun _ => ((1 : ℚ), "fine"))
        (fun _ => some [(1 : ℚ)]) (fun _ _ => (1 : ℚ)) (7/10 : ℚ)
        (fun _ => "regenerated") "query" (String.mk (List.replicate 8001 'c'))
        "answer").regenCalls,
      ∃ score reasoning, p = mkRetryPrompt "query"
        ((String.mk (List.replicate 8001 'c')).take MAX_CONTEXT_LENGTH) score
        "answer" reasoning) ∧
    (∃ pre post, generateResponsePrompt "query" (String.mk (List.replicate 8001 'c')) =
      pre ++ String.mk (List.replicate 8001 'c') ++ post)) := by
  have hw : Char.isWhitespace 'c' = false := by decide
  have h1 : trimL (List.replicate 8001 'c') = List.replicate 8001 'c' := by
    unfold trimL
    rw [List.dropWhile_replicate]
    simp only [hw, if_false, Bool.false_eq_true, List.reverse_replicate]
    rw [List.dropWhile_replicate]
    simp only [hw, if_false, Bool.false_eq_true, List.reverse_replicate]
  have htrim : jsTrim (String.mk (List.replicate 8001 'c')) ≠ "" := by
    unfold jsTrim
    rw [show (String.mk (List.replicate 8001 'c')).data = List.replicate 8001 'c' from rfl]
    rw [h1]
    intro hc
    have hd := congrArg String.data hc
    have hl := congrArg List.length hd
    rw [List.length_replicate] at hl
    simp at hl
  have hlen : MAX_CONTEXT_LENGTH < (String.mk (List.replicate 8001 'c')).length := by
    show MAX_CONTEXT_LENGTH < (List.replicate 8001 'c').length
    rw [List.length_replicate, MAX_CONTEXT_LENGTH]
    omega
  exact ⟨htrim, hlen,
    context_truncation (3/5 : ℚ) (fun _ => ((1 : ℚ), "fine"))
      (fun _ => some [(1 : ℚ)]) (fun _ _ => (1 : ℚ)) (7/10 : ℚ)
      (fun _ => "regenerated") "query" (String.mk (List.replicate 8001 'c'))
      "answer" htrim hlen⟩

/-- C5: for every hierarchical retrieval in which phase A yields zero source
file paths, the phase-B chunk query is never issued (the only tool call is
the phase-A summary query) and the returned context blob is the empty
string. -/
theorem hierarchical_phaseA_empty
    (hybridEnabled : Bool) (topNSummaries : Nat)
    (processTextToFinalTokens : String → List String)
    (vocabulary : Option (List (String × Nat)))
    (tool : ToolCall → List Item) (filter : Option Json) (queryText : String)
    (hA : ((tool (ToolCall.vectorQuery ⟨queryText, some summaryFilter,
        computeQuerySparseVector hybridEnabled processTextToFinalTokens
          vocabulary queryText⟩)).take topNSummaries).filterMap
      (fun s => truthyStr s.metaSource) = []) :
    (getContextExec hybridEnabled topNSummaries processTextToFinalTokens
        vocabulary tool .hierarchical filter queryText).calls =
      [ToolCall.vectorQuery ⟨queryText, some summaryFilter,
        computeQuerySparseVector hybridEnabled processTextToFinalTokens
          vocabulary queryText⟩] ∧
    (getContextExec hybridEnabled topNSummaries processTextToFinalTokens
        vocabulary tool .hierarchical filter queryText).outcome = .ok "" := by
  constructor <;>
    simp [getContextExec, hA, formatContextItems, String.join]

/-- Closed witness for `hierarchical_phaseA_empty` with a tool oracle that
returns no summaries. -/
theorem hierarchical_phaseA_empty_witness :
    ((((fun _ => []) (ToolCall.vectorQuery ⟨"query", some summaryFilter,
        computeQuerySparseVector false (fun _ => []) none "query"⟩) :
          List Item).take 3).filterMap (fun s => truthyStr s.metaSource) = []) ∧
    ((getContextExec false 3 (fun _ => []) none (fun _ => []) .hierarchical
        none "query").calls =
      [ToolCall.vectorQuery ⟨"query", some summaryFilter,
        computeQuerySparseVector false (fun _ => []) none "query"⟩] ∧
    (getContextExec false 3 (fun _ => []) none (fun _ => []) .hierarchical
        none "query").outcome = .ok "") :=
  ⟨rfl, hierarchical_phaseA_empty false 3 (fun _ => []) none (fun _ => [])
    none "query" rfl⟩

/-- C2: for every retrieval with strategy basic/metadata/documentation/example
whose decision carries a non-empty filter, if the filtered query returns zero
items then exactly one fallback retry is issued, with the identical query
text and sparse vector and the filter removed, and the fallback's formatted
result is the final outcome (the empty blob when the fallback also returns
zero items, with no further retry); moreover the graph strategy issues no
vector calls at all, every hierarchical call carries a filter (so no
filter-removed fallback ever happens there), and a null/empty filter never
triggers a fallback (the trace stays a single call). -/
theorem getContext_fallback_once
    (hybridEnabled : Bool) (topNSummaries : Nat)
    (processTextToFinalTokens : String → List String)
    (vocabulary : Option (List (String × Nat)))
    (tool : ToolCall → List Item)
    (strategy : Strategy) (filter : Option Json) (queryText : String)
    (hstrat : strategy = .basic ∨ strategy = .metadata ∨
      strategy = .documentation ∨ strategy = .example)
    (hfilter : filterNonEmpty filter = true)
    (hempty : tool (ToolCall.vectorQuery ⟨queryText, filter,
      computeQuerySparseVector hybridEnabled processTextToFinalTokens
        vocabulary queryText⟩) = []) :
    ((getContextExec hybridEnabled topNSummaries processTextToFinalTokens
        vocabulary tool strategy filter queryText).calls =
      [ToolCall.vectorQuery ⟨queryText, filter,
        computeQuerySparseVector hybridEnabled processTextToFinalTokens
          vocabulary queryText⟩,
       ToolCall.vectorQuery ⟨queryText, none,
        computeQuerySparseVector hybridEnabled processTextToFinalTokens
          vocabulary queryText⟩]) ∧
    ((getContextExec hybridEnabled topNSummaries processTextToFinalTokens
        vocabulary tool strategy filter queryText).outcome =
      .ok (formatContextItems (tool (ToolCall.vectorQuery ⟨queryText, none,
        computeQuerySparseVector hybridEnabled processTextToFinalTokens
          vocabulary queryText⟩)))) ∧
    (tool (ToolCall.vectorQuery ⟨queryText, none,
        computeQuerySparseVector hybridEnabled processTextToFinalTokens
          vocabulary queryText⟩) = [] →
      (getContextExec hybridEnabled topNSummaries processTextToFinalTokens
        vocabulary tool strategy filter queryText).outcome = .ok "") ∧
    (∀ f q, (getContextExec hybridEnabled topNSummaries processTextToFinalTokens
        vocabulary tool .graph f q).calls = []) ∧
    (∀ f q c, c ∈ (getContextExec hybridEnabled topNSummaries
        processTextToFinalTokens vocabulary tool .hierarchical f q).calls →
      ∃ args, c = ToolCall.vectorQuery args ∧ args.filter ≠ none) ∧
    (∀ f q, filterNonEmpty f = false →
      (getContextExec hybridEnabled topNSummaries processTextToFinalTokens
        vocabulary tool strategy f q).calls =
      [ToolCall.vectorQuery ⟨q, f,
        computeQuerySparseVector hybridEnabled processTextToFinalTokens
          vocabulary q⟩]) := by
  have hmain : ∀ s, (s = Strategy.basic ∨ s = .metadata ∨
      s = .documentation ∨ s = .example) →
      (getContextExec hybridEnabled topNSummaries processTextToFinalTokens
        vocabulary tool s filter queryText) =
      ⟨.ok (formatContextItems (tool (ToolCall.vectorQuery ⟨queryText, none,
          computeQuerySparseVector hybridEnabled processTextToFinalTokens
            vocabulary queryText⟩))),
        [ToolCall.vectorQuery ⟨queryText, filter,
          computeQuerySparseVector hybridEnabled processTextToFinalTokens
            vocabulary queryText⟩,
         ToolCall.vectorQuery ⟨queryText, none,
          computeQuerySparseVector hybridEnabled processTextToFinalTokens
            vocabulary queryText⟩]⟩ := by
    intro s hs
    rcases hs with hs | hs | hs | hs <;> subst hs <;>
      simp [getContextExec, hempty, hfilter]
  refine ⟨?_, ?_, ?_, ?_, ?_, ?_⟩
  · rw [hmain strategy hstrat]
  · rw [hmain strategy hstrat]
  · intro h2
    rw [hmain strategy hstrat]
    simp [h2, formatContextItems, String.join]
  · intro f q
    simp [getContextExec]
  · intro f q c hc
    simp only [getContextExec] at hc
    by_cases hA : (((tool (ToolCall.vectorQuery ⟨q, some summaryFilter,
        computeQuerySparseVector hybridEnabled processTextToFinalTokens
          vocabulary q⟩)).take topNSummaries).filterMap
        (fun s => truthyStr s.metaSource)).isEmpty
    · simp [hA] at hc
      exact ⟨_, hc, by simp⟩
    · simp [hA] at hc
      rcases hc with hc | hc
      · exact ⟨_, hc, by simp⟩
      · exact ⟨_, hc, by simp⟩
  · intro f q hf
    rcases hstrat with hs | hs | hs | hs <;> subst hs <;>
      simp [getContextExec, hf]

/-- Closed witness for `getContext_fallback_once`: basic strategy, a
one-field filter, and a tool oracle that always returns zero items. -/
theorem getContext_fallback_once_witness :
    (Strategy.basic = Strategy.basic ∨ Strategy.basic = .metadata ∨
      Strategy.basic = .documentation ∨ Strategy.basic = .example) ∧
    filterNonEmpty (some (Json.obj [("category", Json.str "docs")])) = true ∧
    (((fun _ => []) : ToolCall → List Item) (ToolCall.vectorQuery
      ⟨"query", some (Json.obj [("category", Json.str "docs")]),
        computeQuerySparseVector false (fun _ => []) none "query"⟩) = []) ∧
    (((getContextExec false 3 (fun _ => []) none (fun _ => []) .basic
        (some (Json.obj [("category", Json.str "docs")])) "query").calls =
      [ToolCall.vectorQuery ⟨"query", some (Json.obj [("category", Json.str "docs")]),
        computeQuerySparseVector false (fun _ => []) none "query"⟩,
       ToolCall.vectorQuery ⟨"query", none,
        computeQuerySparseVector false (fun _ => []) none "query"⟩]) ∧
    ((getContextExec false 3 (fun _ => []) none (fun _ => []) .basic
        (some (Json.obj [("category", Json.str "docs")])) "query").outcome =
      .ok (formatContextItems (((fun _ => []) : ToolCall → List Item)
        (ToolCall.vectorQuery ⟨"query", none,
          computeQuerySparseVector false (fun _ => []) none "query"⟩)))) ∧
    (((fun _ => []) : ToolCall → List Item) (ToolCall.vectorQuery ⟨"query", none,
        computeQuerySparseVector false (fun _ => []) none "query"⟩) = [] →
      (getContextExec false 3 (fun _ => []) none (fun _ => []) .basic
        (some (Json.obj [("category", Json.str "docs")])) "query").outcome = .ok "") ∧
    (∀ f q, (getContextExec false 3 (fun _ => []) none (fun _ => [])
        .graph f q).calls = []) ∧
    (∀ f q c, c ∈ (getContextExec false 3 (fun _ => []) none (fun _ => [])
        .hierarchical f q).calls →
      ∃ args, c = ToolCall.vectorQuery args ∧ args.filter ≠ none) ∧
    (∀ f q, filterNonEmpty f = false →
      (getContextExec false 3 (fun _ => []) none (fun _ => []) .basic f q).calls =
      [ToolCall.vectorQuery ⟨q, f,
        computeQuerySparseVector false (fun _ => []) none q⟩])) :=
  ⟨Or.inl rfl, by decide, rfl,
    getContext_fallback_once false 3 (fun _ => []) none (fun _ => []) .basic
      (some (Json.obj [("category", Json.str "docs")])) "query"
      (Or.inl rfl) (by decide) rfl⟩

/-- Membership is invariant under first-occurrence deduplication. -/
theorem mem_dedupFirst (l : List String) (t : String) :
    t ∈ dedupFirst l ↔ t ∈ l := by
  induction l with
  | nil => simp [dedupFirst]
  | cons u rest ih =>
    by_cases htu : t = u
    · subst htu
      simp [dedupFirst]
    · simp [dedupFirst, List.mem_filter, ih, htu]

/-- C6: the sparse-vector builder returns `none` exactly when no processed
token of the query is in the vocabulary; otherwise the `indices` and `values`
arrays have equal length and every (index, value) position corresponds to a
processed token whose vocabulary index is that index and whose term frequency
among the processed tokens is exactly that value. -/
theorem processQueryForSparseVector_spec
    (processTextToFinalTokens : String → List String)
    (query : String) (vocabulary : List (String × Nat)) (sparseVectorName : String)
    (h0 : processTextToFinalTokens "" = []) :
    (processQueryForSparseVector processTextToFinalTokens query vocabulary
        sparseVectorName = none ↔
      ∀ t ∈ processTextToFinalTokens query, List.lookup t vocabulary = none) ∧
    (∀ v, processQueryForSparseVector processTextToFinalTokens query vocabulary
        sparseVectorName = some v →
      v.indices.length = v.values.length ∧
      ∀ p ∈ v.indices.zip v.values, ∃ t, t ∈ processTextToFinalTokens query ∧
        List.lookup t vocabulary = some p.1 ∧
        p.2 = (processTextToFinalTokens query).count t) := by
  by_cases hq : query = ""
  · subst hq
    simp [processQueryForSparseVector, h0]
  · by_cases hp : ((dedupFirst (processTextToFinalTokens query)).filterMap
        (fun term => (List.lookup term vocabulary).map
          (fun idx => (idx, (processTextToFinalTokens query).count term)))).isEmpty
    · have hnil := List.isEmpty_iff.mp hp
      constructor
      · rw [processQueryForSparseVector]
        simp only [hq, if_false]
        rw [if_pos hp]
        rw [List.filterMap_eq_nil_iff] at hnil
        constructor
        · intro _ t ht
          have := hnil t ((mem_dedupFirst _ t).mpr ht)
          simpa using this
        · intro _
          rfl
      · intro v hv
        rw [processQueryForSparseVector] at hv
        simp only [hq, if_false] at hv
        rw [if_pos hp] at hv
        exact absurd hv (by simp)
    · have hfalse : ¬(((dedupFirst (processTextToFinalTokens query)).filterMap
          (fun term => (List.lookup term vocabulary).map
            (fun idx => (idx, (processTextToFinalTokens query).count term)))).isEmpty = true) := hp
      constructor
      · rw [processQueryForSparseVector]
        simp only [hq, if_false]
        rw [if_neg hfalse]
        constructor
        · intro hcontra
          simp at hcontra
        · intro hall
          exfalso
          apply hp
          rw [List.isEmpty_iff, List.filterMap_eq_nil_iff]
          intro term hterm
          have := hall term ((mem_dedupFirst _ term).mp hterm)
          simp [this]
      · intro v hv
        rw [processQueryForSparseVector] at hv
        simp only [hq, if_false] at hv
        rw [if_neg hfalse] at hv
        rw [Option.some.injEq] at hv
        subst hv
        constructor
        · simp
        · intro p hpmem
          simp only [List.zip_map'] at hpmem
          rw [List.mem_map] at hpmem
          obtain ⟨q2, hq2, hq2p⟩ := hpmem
          rw [List.mem_filterMap] at hq2
          obtain ⟨term, hterm, hmap⟩ := hq2
          rw [Option.map_eq_some'] at hmap
          obtain ⟨idx, hidx, hpair⟩ := hmap
          refine ⟨term, (mem_dedupFirst _ term).mp hterm, ?_, ?_⟩
          · rw [hidx, ← hq2p, ← hpair]
          · rw [← hq2p, ← hpair]

/-- Closed witness for `processQueryForSparseVector_spec`: a concrete
tokenizer sending `foo bar foo` to the token list `[foo, bar, foo]`, and a
vocabulary knowing only `foo` at index 7 (the built vector is `([7], [2])`). -/
theorem processQueryForSparseVector_spec_witness :
    ((fun s => if (s : String) = "" then [] else ["foo", "bar", "foo"]) "" = ([] : List String)) ∧
    ((processQueryForSparseVector
        (fun s => if (s : String) = "" then [] else ["foo", "bar", "foo"])
        "foo bar foo" [("foo", 7)] "keyword_sparse" = none ↔
      ∀ t ∈ (fun s => if (s : String) = "" then [] else ["foo", "bar", "foo"]) "foo bar foo",
        List.lookup t [("foo", 7)] = none) ∧
    (∀ v, processQueryForSparseVector
        (fun s => if (s : String) = "" then [] else ["foo", "bar", "foo"])
        "foo bar foo" [("foo", 7)] "keyword_sparse" = some v →
      v.indices.length = v.values.length ∧
      ∀ p ∈ v.indices.zip v.values, ∃ t,
        t ∈ (fun s => if (s : String) = "" then [] else ["foo", "bar", "foo"]) "foo bar foo" ∧
        List.lookup t [("foo", 7)] = some p.1 ∧
        p.2 = ((fun s => if (s : String) = "" then [] else ["foo", "bar", "foo"]) "foo bar foo").count t)) :=
  ⟨by decide,
    processQueryForSparseVector_spec
      (fun s => if (s : String) = "" then [] else ["foo", "bar", "foo"])
      "foo bar foo" [("foo", 7)] "keyword_sparse" (by decide)⟩

mutual

/-- Validation succeeds on a filter tree free of unsupported operators. -/
theorem validateFilter_ok_of_no_unsupported (j : Json)
    (h : hasUnsupportedOp j = false) : validateFilter j = .ok () := by
  match j with
  | .null | .bool _ | .num _ | .str _ => rfl
  | .arr elems =>
    rw [hasUnsupportedOp] at h
    exact validateList_ok_of_no_unsupported elems h
  | .obj fields =>
    rw [hasUnsupportedOp] at h
    exact validateFields_ok_of_no_unsupported fields h
termination_by (sizeOf j, 0)

/-- See `validateFilter_ok_of_no_unsupported`. -/
theorem validateFields_ok_of_no_unsupported (fs : List (String × Json))
    (h : hasUnsupportedOpFields fs = false) : validateFields fs = .ok () := by
  match fs with
  | [] => rfl
  | (k, v) :: rest =>
    rw [hasUnsupportedOpFields] at h
    simp only [Bool.or_eq_false_iff] at h
    obtain ⟨⟨h1, h2⟩, h3⟩ := h
    rw [validateFields, if_neg (by simp [h1]),
      validateFilter_ok_of_no_unsupported v h2,
      validateFields_ok_of_no_unsupported rest h3]
termination_by (sizeOf fs, 1)

/-- See `validateFilter_ok_of_no_unsupported`. -/
theorem validateList_ok_of_no_unsupported (l : List Json)
    (h : hasUnsupportedOpList l = false) : validateList l = .ok () := by
  match l with
  | [] => rfl
  | v :: rest =>
    rw [hasUnsupportedOpList] at h
    simp only [Bool.or_eq_false_iff] at h
    rw [validateList, validateFilter_ok_of_no_unsupported v h.1,
      validateList_ok_of_no_unsupported rest h.2]
termination_by (sizeOf l, 1)

/-- Validation fails with the explicit unsupported-operator error on any
filter tree containing an unsupported `$`-prefixed key. -/
theorem validateFilter_unsupported (j : Json) (h : hasUnsupportedOp j = true) :
    ∃ op, isSupportedOp op = false ∧ startsWithDollar op = true ∧
      validateFilter j = .error ("Unsupported operator: " ++ op) := by
  match j with
  | .null | .bool _ | .num _ | .str _ => simp [hasUnsupportedOp] at h
  | .arr elems =>
    rw [hasUnsupportedOp] at h
    obtain ⟨op, h1, h2, h3⟩ := validateList_unsupported elems h
    exact ⟨op, h1, h2, by rw [validateFilter, h3]⟩
  | .obj fields =>
    rw [hasUnsupportedOp] at h
    obtain ⟨op, h1, h2, h3⟩ := validateFields_unsupported fields h
    exact ⟨op, h1, h2, by rw [validateFilter, h3]⟩
termination_by (sizeOf j, 0)

/-- See `validateFilter_unsupported`. -/
theorem validateFields_unsupported (fs : List (String × Json))
    (h : hasUnsupportedOpFields fs = true) :
    ∃ op, isSupportedOp op = false ∧ startsWithDollar op = true ∧
      validateFields fs = .error ("Unsupported operator: " ++ op) := by
  match fs with
  | [] => rw [hasUnsupportedOpFields] at h; exact absurd h (by simp)
  | (k, v) :: rest =>
    by_cases h1 : (startsWithDollar k && !isSupportedOp k) = true
    · refine ⟨k, ?_, ?_, ?_⟩
      · simp only [Bool.and_eq_true, Bool.not_eq_true'] at h1
        exact h1.2
      · simp only [Bool.and_eq_true] at h1
        exact h1.1
      · rw [validateFields, if_pos h1]
    · rw [hasUnsupportedOpFields] at h
      simp only [h1, Bool.false_or, Bool.or_eq_true] at h
      by_cases h2 : hasUnsupportedOp v = true
      · obtain ⟨op, ha, hb, hc⟩ := validateFilter_unsupported v h2
        exact ⟨op, ha, hb, by rw [validateFields, if_neg h1, hc]⟩
      · have h3 : hasUnsupportedOpFields rest = true := by
          rcases h with h | h
          · exact absurd h h2
          · exact h
        obtain ⟨op, ha, hb, hc⟩ := validateFields_unsupported rest h3
        refine ⟨op, ha, hb, ?_⟩
        rw [validateFields, if_neg h1,
          validateFilter_ok_of_no_unsupported v (by simpa using h2), hc]
termination_by (sizeOf fs, 1)

/-- See `validateFilter_unsupported`. -/
theorem validateList_unsupported (l : List Json)
    (h : hasUnsupportedOpList l = true) :
    ∃ op, isSupportedOp op = false ∧ startsWithDollar op = true ∧
      validateList l = .error ("Unsupported operator: " ++ op) := by
  match l with
  | [] => rw [hasUnsupportedOpList] at h; exact absurd h (by simp)
  | v :: rest =>
    rw [hasUnsupportedOpList] at h
    by_cases h2 : hasUnsupportedOp v = true
    · obtain ⟨op, ha, hb, hc⟩ := validateFilter_unsupported v h2
      exact ⟨op, ha, hb, by rw [validateList, hc]⟩
    · have h3 : hasUnsupportedOpList rest = true := by
        simp only [Bool.or_eq_true] at h
        rcases h with h | h
        · exact absurd h h2
        · exact h
      obtain ⟨op, ha, hb, hc⟩ := validateList_unsupported rest h3
      refine ⟨op, ha, hb, ?_⟩
      rw [validateList,
        validateFilter_ok_of_no_unsupported v (by simpa using h2), hc]
termination_by (sizeOf l, 1)

end

/-- C7: for every filter expression containing an operator outside the
declared supported-operator set (a `$`-prefixed key not in the table, such as
`$bogus`), `translate` raises the explicit unsupported-operator validation
error instead of silently ignoring or dropping the operator. -/
theorem translate_unsupported_operator_error (filter : Json)
    (h : hasUnsupportedOp filter = true) :
    ∃ op, isSupportedOp op = false ∧ startsWithDollar op = true ∧
      translate filter = .error ("Unsupported operator: " ++ op) := by
  obtain ⟨op, h1, h2, h3⟩ := validateFilter_unsupported filter h
  refine ⟨op, h1, h2, ?_⟩
  have hne : isEmptyNode filter = false := by
    match filter with
    | .null => simp [hasUnsupportedOp] at h
    | .bool _ | .num _ | .str _ | .arr _ => rfl
    | .obj [] =>
      rw [hasUnsupportedOp, hasUnsupportedOpFields] at h
      exact absurd h (by simp)
    | .obj (f :: fs) => rfl
  rw [translate, if_neg (by simp [hne]), h3]

/-- Closed witness for `translate_unsupported_operator_error` at the filter
with single key `$bogus`. -/
theorem translate_unsupported_operator_error_witness :
    hasUnsupportedOp (Json.obj [("$bogus", Json.null)]) = true ∧
    (∃ op, isSupportedOp op = false ∧ startsWithDollar op = true ∧
      translate (Json.obj [("$bogus", Json.null)]) =
        .error ("Unsupported operator: " ++ op)) :=
  ⟨by simp [hasUnsupportedOp, hasUnsupportedOpFields, hasUnsupportedOpList,
      isSupportedOp, supportedOperators, startsWithDollar],
    translate_unsupported_operator_error (Json.obj [("$bogus", Json.null)])
      (by simp [hasUnsupportedOp, hasUnsupportedOpFields, hasUnsupportedOpList,
        isSupportedOp, supportedOperators, startsWithDollar])⟩

/-- C10: for every filter node that is an object carrying the key `must`
(the vector store's native format), `translateNode` returns the node
unchanged, at every nesting level (any `isNested`/`fieldKey` arguments) and
without translating its children. -/
theorem translateNode_native_identity (fields : List (String × Json))
    (isNested : Bool) (fieldKey : Option String)
    (h : hasMustKey (Json.obj fields) = true) :
    translateNode (Json.obj fields) isNested fieldKey = .ok (Json.obj fields) := by
  have hne : isEmptyNode (Json.obj fields) = false := by
    match fields with
    | [] => exact absurd h (by simp [hasMustKey])
    | f :: fs => rfl
  rw [translateNode]
  simp [hne, h]

/-- Closed witness for `translateNode_native_identity` at the native filter
with an empty `must` list, in nested position. -/
theorem translateNode_native_identity_witness :
    hasMustKey (Json.obj [("must", Json.arr [])]) = true ∧
    translateNode (Json.obj [("must", Json.arr [])]) true (some "field") =
      .ok (Json.obj [("must", Json.arr [])]) :=
  ⟨by decide,
    translateNode_native_identity [("must", Json.arr [])] true (some "field")
      (by decide)⟩

/-- Boolean prefix test as an append decomposition. -/
theorem isPrefixOfL_iff (p : List Char) : ∀ (s : List Char),
    isPrefixOfL p s = true ↔ ∃ t, s = p ++ t := by
  induction p with
  | nil =>
    intro s
    simp [isPrefixOfL]
  | cons a as ih =>
    intro s
    cases s with
    | nil => simp [isPrefixOfL]
    | cons b bs =>
      rw [isPrefixOfL]
      simp only [Bool.and_eq_true, beq_iff_eq, ih bs]
      constructor
      · rintro ⟨rfl, t, rfl⟩
        exact ⟨t, rfl⟩
      · rintro ⟨t, ht⟩
        rw [List.cons_append] at ht
        injection ht with h1 h2
        exact ⟨h1.symm, t, h2⟩

/-- Take distributes over append. -/
theorem takeAppend (u : List Char) : ∀ (w : List Char) (n : Nat),
    (u ++ w).take n = u.take n ++ w.take (n - u.length) := by
  induction u with
  | nil => intro w n; simp
  | cons c u' ih =>
    intro w n
    cases n with
    | zero => simp
    | succ n' =>
      rw [List.cons_append, List.take_succ_cons, List.take_succ_cons, ih w n',
        List.cons_append]
      congr 2
      simp [Nat.succ_sub_succ]

/-- Drop distributes over append. -/
theorem dropAppend (u : List Char) : ∀ (w : List Char) (n : Nat),
    (u ++ w).drop n = u.drop n ++ w.drop (n - u.length) := by
  induction u with
  | nil => intro w n; simp
  | cons c u' ih =>
    intro w n
    cases n with
    | zero => simp
    | succ n' =>
      rw [List.cons_append, List.drop_succ_cons, List.drop_succ_cons, ih w n']
      congr 1
      simp [Nat.succ_sub_succ]

/-- Soundness of `findFirstSplit`: a found split decomposes the string. -/
theorem findFirstSplit_some (pat : List Char) : ∀ (s x y : List Char),
    findFirstSplit pat s = some (x, y) → s = x ++ pat ++ y := by
  intro s
  induction s with
  | nil =>
    intro x y h
    by_cases hp : pat.isEmpty = true
    · rw [findFirstSplit, if_pos hp] at h
      simp only [Option.some.injEq, Prod.mk.injEq] at h
      obtain ⟨hx, hy⟩ := h
      subst hx; subst hy
      rw [List.isEmpty_iff] at hp
      subst hp
      rfl
    · rw [findFirstSplit, if_neg hp] at h
      simp at h
  | cons c rest ih =>
    intro x y h
    rw [findFirstSplit] at h
    by_cases hp : isPrefixOfL pat (c :: rest) = true
    · rw [if_pos hp] at h
      simp only [Option.some.injEq, Prod.mk.injEq] at h
      obtain ⟨hx, hy⟩ := h
      subst hx; subst hy
      obtain ⟨t, ht⟩ := (isPrefixOfL_iff pat (c :: rest)).mp hp
      rw [ht, List.drop_left, List.nil_append]
    · rw [if_neg hp] at h
      cases hfr : findFirstSplit pat rest with
      | none => rw [hfr] at h; simp at h
      | some pr =>
        obtain ⟨pre, post⟩ := pr
        rw [hfr] at h
        simp only [Option.some.injEq, Prod.mk.injEq] at h
        obtain ⟨hx, hy⟩ := h
        subst hx; subst hy
        have := ih pre post hfr
        simp only [List.cons_append, List.append_assoc]
        rw [← List.append_assoc, ← this]

/-- A failed search means no suffix of `s` starts with `pat`. -/
theorem findFirstSplit_none_no_hit (pat : List Char) : ∀ (s : List Char),
    findFirstSplit pat s = none → ∀ i, isPrefixOfL pat (s.drop i) = false := by
  intro s
  induction s with
  | nil =>
    intro h i
    rw [List.drop_nil]
    match pat, h with
    | [], h => rw [findFirstSplit] at h; simp at h
    | p :: ps, _ => rfl
  | cons c rest ih =>
    intro h
    rw [findFirstSplit] at h
    by_cases hp : isPrefixOfL pat (c :: rest) = true
    · rw [if_pos hp] at h; simp at h
    · rw [if_neg hp] at h
      have hrest : findFirstSplit pat rest = none := by
        cases hfr : findFirstSplit pat rest with
        | none => rfl
        | some pr => obtain ⟨x, y⟩ := pr; rw [hfr] at h; simp at h
      intro i
      match i with
      | 0 => rw [List.drop_zero]; simpa using hp
      | i' + 1 => rw [List.drop_succ_cons]; exact ih hrest i'

/-- No suffix of `a ++ z` starting inside `a` begins with `hd :: pt` when
`hd` does not occur in `a`. -/
theorem no_prefix_of_head_notMem (hd : Char) (pt z : List Char) :
    ∀ (a : List Char), hd ∉ a →
      ∀ i, i < a.length → isPrefixOfL (hd :: pt) ((a ++ z).drop i) = false := by
  intro a
  induction a with
  | nil => intro _ i hi; simp at hi
  | cons c a' ih =>
    intro hmem i hi
    match i with
    | 0 =>
      rw [List.drop_zero, List.cons_append, isPrefixOfL]
      have hne : (hd == c) = false := by
        simp only [beq_eq_false_iff_ne, ne_eq]
        intro hcontra
        subst hcontra
        exact hmem (List.mem_cons_self hd a')
      rw [hne, Bool.false_and]
    | i' + 1 =>
      rw [List.cons_append, List.drop_succ_cons]
      exact ih (fun hm => hmem (List.mem_cons_of_mem c hm)) i' (by
        simp only [List.length_cons] at hi
        omega)

/-- Completeness of `findFirstSplit`: it finds an occurrence at the split
point when no earlier suffix starts with the pattern. -/
theorem findFirstSplit_append (pat : List Char) (hpat : pat ≠ []) :
    ∀ (a b : List Char),
      (∀ i, i < a.length → isPrefixOfL pat ((a ++ (pat ++ b)).drop i) = false) →
      findFirstSplit pat (a ++ (pat ++ b)) = some (a, b) := by
  intro a
  induction a with
  | nil =>
    intro b _
    rw [List.nil_append]
    match pat, hpat with
    | p :: ps, _ =>
      rw [List.cons_append, findFirstSplit]
      have hpre : isPrefixOfL (p :: ps) (p :: (ps ++ b)) = true := by
        rw [isPrefixOfL_iff]
        exact ⟨b, by rw [List.cons_append]⟩
      rw [if_pos hpre]
      have hdrop : (p :: (ps ++ b)).drop (p :: ps).length = b := by
        rw [← List.cons_append, List.drop_left]
      rw [hdrop]
  | cons c a' ih =>
    intro b hno
    rw [List.cons_append, findFirstSplit]
    have h0 : isPrefixOfL pat (c :: (a' ++ (pat ++ b))) = false := by
      have := hno 0 (by simp)
      rwa [List.drop_zero, List.cons_append] at this
    rw [if_neg (by simp [h0])]
    have hrec := ih b (fun i hi => by
      have := hno (i + 1) (by
        simp only [List.length_cons]
        omega)
      rwa [List.cons_append, List.drop_succ_cons] at this)
    rw [hrec]

/-- No suffix of `c ++ (closeFenceL ++ z)` starting inside `c` begins with
`closeFenceL` when the closing delimiter does not occur in `c`: an occurrence
would either lie inside `c` or overlap the boundary, and `closeFenceL` has no
self-overlap. -/
theorem no_prefix_close_boundary (c z : List Char)
    (hc : findFirstSplit closeFenceL c = none) :
    ∀ i, i < c.length →
      isPrefixOfL closeFenceL ((c ++ (closeFenceL ++ z)).drop i) = false := by
  intro i hi
  by_contra hcon
  rw [Bool.not_eq_false] at hcon
  have hle : i ≤ c.length := Nat.le_of_lt hi
  rw [dropAppend, Nat.sub_eq_zero_of_le hle, List.drop_zero] at hcon
  obtain ⟨t, ht⟩ := (isPrefixOfL_iff _ _).mp hcon
  have hlen8 : closeFenceL.length = 8 := by decide
  have htake := congrArg (List.take 8) ht
  have hR : (closeFenceL ++ t).take 8 = closeFenceL := by
    rw [takeAppend, hlen8]
    simp only [Nat.sub_self, List.take_zero, List.append_nil]
    rw [← hlen8, List.take_length]
  by_cases hk : 8 ≤ (c.drop i).length
  · have hL : ((c.drop i) ++ (closeFenceL ++ z)).take 8 = (c.drop i).take 8 := by
      rw [takeAppend, Nat.sub_eq_zero_of_le hk]
      simp only [List.take_zero, List.append_nil]
    rw [hL, hR] at htake
    have hpref : isPrefixOfL closeFenceL (c.drop i) = true := by
      rw [isPrefixOfL_iff]
      refine ⟨(c.drop i).drop 8, ?_⟩
      rw [← htake]
      exact (List.take_append_drop 8 (c.drop i)).symm
    have hnone := findFirstSplit_none_no_hit closeFenceL c hc i
    rw [hpref] at hnone
    exact absurd hnone (by simp)
  · push_neg at hk
    have hk1 : 1 ≤ (c.drop i).length := by
      rw [List.length_drop]
      omega
    have hL : ((c.drop i) ++ (closeFenceL ++ z)).take 8 =
        (c.drop i) ++ closeFenceL.take (8 - (c.drop i).length) := by
      rw [takeAppend, List.take_of_length_le (Nat.le_of_lt hk), takeAppend]
      have h0 : 8 - (c.drop i).length - closeFenceL.length = 0 := by
        rw [hlen8]
        omega
      rw [h0, List.take_zero, List.append_nil]
    rw [hL, hR] at htake
    have hdropk := congrArg (List.drop (c.drop i).length) htake
    rw [List.drop_left] at hdropk
    have hfact : ∀ kk : Fin 8, 0 < kk.val →
        closeFenceL.take (8 - kk.val) ≠ closeFenceL.drop kk.val := by decide
    exact hfact ⟨(c.drop i).length, hk⟩ hk1 hdropk

/-- The parse loop over a junk prefix plus formatted records: when the junk
contains no record-leading character, every path contains no newline and no
content contains the closing delimiter, parsing returns exactly the list of
trimmed (path, content) pairs. -/
theorem parse_format_aux (snips : List (List Char × List Char))
    (h : ∀ s ∈ snips, '\n' ∉ s.1 ∧ findFirstSplit closeFenceL s.2 = none) :
    ∀ (junk : List Char), 'F' ∉ junk →
      parseContextSnippetsL (junk ++ formatSnippetsL snips) =
        snips.map (fun s => (trimL s.1, trimL s.2)) := by
  induction snips with
  | nil =>
    intro junk hjunk
    rw [formatSnippetsL]
    simp only [List.map_nil, List.flatten_nil, List.append_nil]
    have hnone : findFirstSplit fileTagL junk = none := by
      cases hfr : findFirstSplit fileTagL junk with
      | none => rfl
      | some pr =>
        obtain ⟨x, y⟩ := pr
        exfalso
        apply hjunk
        rw [findFirstSplit_some fileTagL junk x y hfr]
        have hft : fileTagL = 'F' :: "ile: ".data := by decide
        rw [hft]
        simp
    rw [parseContextSnippetsL]
    split
    · rfl
    · next pre r1 heq =>
      rw [hnone] at heq
      exact absurd heq (by simp)
  | cons sHead rest ih =>
    intro junk hjunk
    obtain ⟨p, c⟩ := sHead
    obtain ⟨hpnl, hcclose⟩ := h (p, c) (List.mem_cons_self _ _)
    have hrest : ∀ s ∈ rest, '\n' ∉ s.1 ∧ findFirstSplit closeFenceL s.2 = none :=
      fun s hs => h s (List.mem_cons_of_mem _ hs)
    have hft : fileTagL = 'F' :: "ile: ".data := by decide
    have hof : openFenceL = '\n' :: "```\n".data := by decide
    have hexpand : junk ++ formatSnippetsL ((p, c) :: rest) =
        junk ++ (fileTagL ++ (p ++ (openFenceL ++ (c ++ (closeFenceL ++
          ('\n' :: formatSnippetsL rest)))))) := by
      rw [formatSnippetsL, List.map_cons, List.flatten_cons, ← formatSnippetsL]
      rw [formatSnippetRecordL]
      simp only [List.append_assoc, List.singleton_append]
    have hF1 : findFirstSplit fileTagL (junk ++ (fileTagL ++ (p ++ (openFenceL ++
        (c ++ (closeFenceL ++ ('\n' :: formatSnippetsL rest))))))) =
        some (junk, p ++ (openFenceL ++ (c ++ (closeFenceL ++
          ('\n' :: formatSnippetsL rest))))) := by
      apply findFirstSplit_append fileTagL (by decide)
      intro i hi
      rw [hft]
      exact no_prefix_of_head_notMem 'F' "ile: ".data _ junk hjunk i hi
    have hF2 : findFirstSplit openFenceL (p ++ (openFenceL ++ (c ++ (closeFenceL ++
        ('\n' :: formatSnippetsL rest))))) =
        some (p, c ++ (closeFenceL ++ ('\n' :: formatSnippetsL rest))) := by
      apply findFirstSplit_append openFenceL (by decide)
      intro i hi
      rw [hof]
      exact no_prefix_of_head_notMem '\n' "```\n".data _ p hpnl i hi
    have hF3 : findFirstSplit closeFenceL (c ++ (closeFenceL ++
        ('\n' :: formatSnippetsL rest))) =
        some (c, '\n' :: formatSnippetsL rest) := by
      apply findFirstSplit_append closeFenceL (by decide)
      exact no_prefix_close_boundary c ('\n' :: formatSnippetsL rest) hcclose
    rw [hexpand, parseContextSnippetsL]
    split
    · next heq =>
      rw [hF1] at heq
      exact absurd heq (by simp)
    · next pre r1 heq =>
      rw [hF1] at heq
      rw [Option.some.injEq, Prod.mk.injEq] at heq
      obtain ⟨hpre, hr1⟩ := heq
      subst hr1
      split
      · next heq2 =>
        rw [hF2] at heq2
        exact absurd heq2 (by simp)
      · next a r2 heq2 =>
        rw [hF2] at heq2
        rw [Option.some.injEq, Prod.mk.injEq] at heq2
        obtain ⟨ha, hr2⟩ := heq2
        subst ha
        subst hr2
        split
        · next heq3 =>
          rw [hF3] at heq3
          exact absurd heq3 (by simp)
        · next b r3 heq3 =>
          rw [hF3] at heq3
          rw [Option.some.injEq, Prod.mk.injEq] at heq3
          obtain ⟨hb, hr3⟩ := heq3
          subst hb
          subst hr3
          have hihstep := ih hrest ['\n'] (by decide)
          rw [List.singleton_append] at hihstep
          rw [hihstep, List.map_cons]

/-- C8 counterexample: the single snippet with path `a` and content `b`
followed by a space contains no delimiter sequence in any field, yet parsing
its formatted blob does not return it — the parser trims the captured
groups, so the trailing space of the content is lost. -/
theorem format_parse_not_identity :
    parseContextSnippetsL (formatSnippetsL [(['a'], ['b', ' '])]) ≠
      [(['a'], ['b', ' '])] := by
  have hval : parseContextSnippetsL (formatSnippetsL [(['a'], ['b', ' '])]) =
      [(['a'], ['b'])] := by
    simp [parseContextSnippetsL, formatSnippetsL, formatSnippetRecordL,
      findFirstSplit, fileTagL, openFenceL, closeFenceL, isPrefixOfL, trimL]
  rw [hval]
  decide

/-- C8 (amended): parsing the formatted blob yields the original snippet
sequence in order, provided each snippet's path contains no newline and is
unchanged by trimming, and each snippet's content does not contain the
closing delimiter `closeFenceL` and is unchanged by trimming. -/
theorem format_parse_roundtrip_trimmed (snips : List (List Char × List Char))
    (h : ∀ s ∈ snips, '\n' ∉ s.1 ∧ trimL s.1 = s.1 ∧
      findFirstSplit closeFenceL s.2 = none ∧ trimL s.2 = s.2) :
    parseContextSnippetsL (formatSnippetsL snips) = snips := by
  have haux := parse_format_aux snips
    (fun s hs => ⟨(h s hs).1, (h s hs).2.2.1⟩) [] (by simp)
  rw [List.nil_append] at haux
  rw [haux]
  rw [List.map_congr_left (g := fun s => s) (fun s hs => ?_), List.map_id']
  obtain ⟨-, h2, -, h4⟩ := h s hs
  rw [h2, h4]

/-- Closed witness for `format_parse_roundtrip_trimmed` at a two-snippet
list. -/
theorem format_parse_roundtrip_trimmed_witness :
    (∀ s ∈ [("a".data, "b".data), ("src/x.ts".data, "code".data)],
      '\n' ∉ s.1 ∧ trimL s.1 = s.1 ∧
      findFirstSplit closeFenceL s.2 = none ∧ trimL s.2 = s.2) ∧
    parseContextSnippetsL (formatSnippetsL
        [("a".data, "b".data), ("src/x.ts".data, "code".data)]) =
      [("a".data, "b".data), ("src/x.ts".data, "code".data)] :=
  ⟨by decide,
    format_parse_roundtrip_trimmed
      [("a".data, "b".data), ("src/x.ts".data, "code".data)] (by decide)⟩

end Ragger
